import Mathlib

/-
Verification of the orchestration layer of the `playing_with_photonics`
repository.

Shallow embedding conventions used throughout this file:
* floating-point values are modelled as exact rationals (`ℚ`); complex
  refractive indices are pairs `ℚ × ℚ` (real part, imaginary part) except in
  the S-parameter conversion, where `ℝ`/`ℂ` are needed for the square root;
* numpy arrays are Lean lists, with elementwise numpy operations modelled by
  `List.zipWith`/`List.map`;
* external collaborators (the femwell eigenmode solver `compute_modes`, the
  scipy interpolator `interp1d`) are parameters of the embedded functions:
  the wrapper logic is verified for every possible collaborator answer;
* Python exceptions are modelled with `Except String`.

Each definition's doc comment names the Python function of `src/utils` that
it embeds.
-/

namespace Photonics

/-! ## `MeepRunner.simulate_component` (src/utils/meep_utils/runner.py):
normalization of raw flux data. -/

/-- The accumulation
`total_power = np.zeros_like(freqs); for p_data in raw_flux.values(): total_power += p_data`
from `MeepRunner.simulate_component`.  `n` is the number of frequency points
(the length of `freqs`, 101 in the runner); `raws` are the per-port raw flux
arrays. -/
def total_power (n : ℕ) (raws : List (List ℚ)) : List ℚ :=
  raws.foldl (fun acc d => List.zipWith (· + ·) acc d) (List.replicate n 0)

/-- The elementwise guard `total_power[total_power == 0] = 1.0` from
`MeepRunner.simulate_component`: zero entries of the total are replaced by 1
before dividing. -/
def guard_total (tp : List ℚ) : List ℚ :=
  tp.map (fun x => if x = 0 then 1 else x)

/-- The data-extraction tail of `MeepRunner.simulate_component`:
`s_params = {name: data / total_power for name, data in raw_flux.items()}`,
with `total_power` accumulated over all monitored ports and its zero entries
replaced by 1.  `raw_flux` is the ordered dictionary `{port name ↦ raw flux
array}`. -/
def simulate_component_normalize (n : ℕ) (raw_flux : List (String × List ℚ)) :
    List (String × List ℚ) :=
  let tp := guard_total (total_power n (raw_flux.map Prod.snd))
  raw_flux.map (fun pd => (pd.1, List.zipWith (· / ·) pd.2 tp))

lemma total_power_aux_length (n : ℕ) (raws : List (List ℚ)) (acc : List ℚ)
    (hacc : acc.length = n) (h : ∀ l ∈ raws, l.length = n) :
    (raws.foldl (fun acc d => List.zipWith (· + ·) acc d) acc).length = n := by
  induction raws generalizing acc with
  | nil => simpa using hacc
  | cons hd tl ih =>
    rw [List.foldl_cons]
    refine ih _ ?_ (fun l hl => h l (List.mem_cons_of_mem _ hl))
    simp [List.length_zipWith, hacc, h hd (List.mem_cons_self _ _)]

lemma total_power_aux_getD (n j : ℕ) (hj : j < n) (raws : List (List ℚ))
    (acc : List ℚ) (hacc : acc.length = n) (h : ∀ l ∈ raws, l.length = n) :
    (raws.foldl (fun acc d => List.zipWith (· + ·) acc d) acc).getD j 0
      = acc.getD j 0 + (raws.map (fun l => l.getD j 0)).sum := by
  induction raws generalizing acc with
  | nil => simp
  | cons hd tl ih =>
    rw [List.foldl_cons, List.map_cons, List.sum_cons,
      ih _ (by simp [List.length_zipWith, hacc, h hd (List.mem_cons_self _ _)])
        (fun l hl => h l (List.mem_cons_of_mem _ hl))]
    have hlen : j < (List.zipWith (· + ·) acc hd).length := by
      simp [List.length_zipWith, hacc, h hd (List.mem_cons_self _ _)]; omega
    rw [List.getD_eq_getElem _ _ hlen, List.getElem_zipWith,
      List.getD_eq_getElem _ _ (by omega : j < acc.length),
      List.getD_eq_getElem _ _ (by rw [h hd (List.mem_cons_self _ _)]; omega)]
    ring

lemma total_power_getD (n j : ℕ) (hj : j < n) (raws : List (List ℚ))
    (h : ∀ l ∈ raws, l.length = n) :
    (total_power n raws).getD j 0 = (raws.map (fun l => l.getD j 0)).sum := by
  unfold total_power
  rw [total_power_aux_getD n j hj raws _ (by simp) h]
  simp [List.getD_eq_getElem, hj]

lemma total_power_length (n : ℕ) (raws : List (List ℚ))
    (h : ∀ l ∈ raws, l.length = n) : (total_power n raws).length = n :=
  total_power_aux_length n raws _ (by simp) h

/-- **C1.** `simulate_component` reports each port's transmission as that
port's raw flux divided by the per-frequency total over all monitored ports,
where a zero total is replaced by `1.0` before dividing; consequently when the
flux at every monitored port is zero the reported transmissions are all zero
(no division by zero occurs). -/
theorem simulate_component_normalization
    (n : ℕ) (raw_flux : List (String × List ℚ))
    (hlen : ∀ pd ∈ raw_flux, (Prod.snd pd).length = n)
    (i j : ℕ) (hi : i < raw_flux.length) (hj : j < n) :
    (((simulate_component_normalize n raw_flux).getD i ("", [])).2.getD j 0
      = ((raw_flux.getD i ("", [])).2.getD j 0) /
        (if (raw_flux.map (fun pd => pd.2.getD j 0)).sum = 0 then 1
         else (raw_flux.map (fun pd => pd.2.getD j 0)).sum))
    ∧ ((∀ pd ∈ raw_flux, pd.2.getD j 0 = 0) →
        ((simulate_component_normalize n raw_flux).getD i ("", [])).2.getD j 0
          = 0) := by
  have hsnd : ∀ l ∈ raw_flux.map Prod.snd, l.length = n := by
    intro l hl
    rcases List.mem_map.mp hl with ⟨pd, hpd, rfl⟩
    exact hlen pd hpd
  have htp_len : (total_power n (raw_flux.map Prod.snd)).length = n :=
    total_power_length n _ hsnd
  have htot : (total_power n (raw_flux.map Prod.snd)).getD j 0
      = (raw_flux.map (fun pd => pd.2.getD j 0)).sum := by
    rw [total_power_getD n j hj _ hsnd, List.map_map]
    rfl
  have hmain :
      ((simulate_component_normalize n raw_flux).getD i ("", [])).2.getD j 0
        = ((raw_flux.getD i ("", [])).2.getD j 0) /
          (if (raw_flux.map (fun pd => pd.2.getD j 0)).sum = 0 then 1
           else (raw_flux.map (fun pd => pd.2.getD j 0)).sum) := by
    unfold simulate_component_normalize
    have hi' : i < (raw_flux.map (fun pd =>
        (pd.1, List.zipWith (· / ·) pd.2
          (guard_total (total_power n (raw_flux.map Prod.snd)))))).length := by
      simpa using hi
    rw [List.getD_eq_getElem _ _ hi', List.getElem_map]
    have hguard_len :
        (guard_total (total_power n (raw_flux.map Prod.snd))).length = n := by
      simp [guard_total, htp_len]
    have hjz : j < (List.zipWith (· / ·) (raw_flux[i].2)
        (guard_total (total_power n (raw_flux.map Prod.snd)))).length := by
      rw [List.length_zipWith, hguard_len, hlen _ (raw_flux.getElem_mem hi)]
      omega
    rw [List.getD_eq_getElem _ _ hjz, List.getElem_zipWith]
    have hjg : j < (guard_total (total_power n (raw_flux.map Prod.snd))).length := by
      omega
    have hguard : (guard_total (total_power n (raw_flux.map Prod.snd)))[j]
        = if (raw_flux.map (fun pd => pd.2.getD j 0)).sum = 0 then 1
          else (raw_flux.map (fun pd => pd.2.getD j 0)).sum := by
      unfold guard_total
      rw [List.getElem_map]
      rw [← List.getD_eq_getElem _ (0 : ℚ) (by omega : j < (total_power n (raw_flux.map Prod.snd)).length), htot]
    rw [hguard, List.getD_eq_getElem _ _ hi,
      List.getD_eq_getElem _ _ (by rw [hlen _ (raw_flux.getElem_mem hi)]; omega)]
  refine ⟨hmain, fun hall => ?_⟩
  have hsum : (raw_flux.map (fun pd => pd.2.getD j 0)).sum = 0 := by
    apply List.sum_eq_zero
    intro x hx
    rcases List.mem_map.mp hx with ⟨pd, hpd, rfl⟩
    exact hall pd hpd
  rw [hmain, hsum, if_pos rfl,
    List.getD_eq_getElem _ _ hi,
    List.getD_eq_getElem _ _ (by rw [hlen _ (raw_flux.getElem_mem hi)]; omega),
    ← List.getD_eq_getElem _ (0 : ℚ)
      (by rw [hlen _ (raw_flux.getElem_mem hi)]; omega),
    hall _ (raw_flux.getElem_mem hi)]
  simp

/-- Witness for C1 at the spec's example: raw flux `{o2: 0.3, o3: 0.7}`
(one frequency point) normalizes to transmissions `{o2: 0.3, o3: 0.7}`. -/
theorem simulate_component_normalization_witness :
    ((simulate_component_normalize 1
        [("o2", [(3 : ℚ)/10]), ("o3", [(7 : ℚ)/10])]).getD 0 ("", [])).2.getD 0 0
      = 3/10 := by
  have h := simulate_component_normalization 1
    [("o2", [(3 : ℚ)/10]), ("o3", [(7 : ℚ)/10])] (by decide) 0 0 (by decide)
    (by decide)
  rw [h.1]
  norm_num

/-! ## `WaveguideTemplate` (src/utils/fem_utils.py). -/

/-- The configuration fields of `WaveguideTemplate.__init__`.  Refractive
indices may be complex in the source (`np.real` is applied before
comparisons), so they are modelled as real/imaginary pairs `ℚ × ℚ`. -/
structure WaveguideTemplate where
  n_core : ℚ × ℚ
  n_box : ℚ × ℚ
  n_clad : ℚ × ℚ
  thickness : ℚ
  slab_thickness : ℚ
  clad_height : ℚ
  domain_width : ℚ
  resolution : ℚ
deriving DecidableEq

/-- An axis-aligned rectangle, as produced by `shapely.geometry.box(minx,
miny, maxx, maxy)`. -/
structure Rect where
  min_x : ℚ
  min_y : ℚ
  max_x : ℚ
  max_y : ℚ
deriving DecidableEq

/-- Horizontal center of a rectangle. -/
def Rect.centerX (b : Rect) : ℚ := (b.min_x + b.max_x) / 2

/-- The geometric quantities computed by
`WaveguideTemplate.create_coupler_mesh` (src/utils/fem_utils.py):
`offset = (gap + width) / 2`, the two core rectangles, the auto-expanded
simulation-domain width `sim_width = max(self.domain_width, 2 * offset + 4.0)`
and the domain rectangle `sim_box`. -/
structure CouplerGeom where
  core_left : Rect
  core_right : Rect
  sim_width : ℚ
  sim_box : Rect
deriving DecidableEq

/-- The geometry-construction part of `WaveguideTemplate.create_coupler_mesh`
(the subsequent meshing is delegated to femwell/meshio and is out of scope). -/
def create_coupler_mesh_geom (t : WaveguideTemplate) (width gap : ℚ) :
    CouplerGeom :=
  let offset := (gap + width) / 2
  let sim_width := max t.domain_width (2 * offset + 4)
  { core_left := ⟨-offset - width / 2, -t.thickness / 2,
                  -offset + width / 2, t.thickness / 2⟩
    core_right := ⟨offset - width / 2, -t.thickness / 2,
                   offset + width / 2, t.thickness / 2⟩
    sim_width := sim_width
    sim_box := ⟨-sim_width / 2, -t.clad_height / 2,
                sim_width / 2, t.clad_height / 2⟩ }

/-- **C5, counterexample.**  The claim "the domain boundary remains at least 4
microns beyond the outer core edge, i.e. `sim_width/2 - ((gap+width)/2 +
width/2) >= 4`" fails at the default template (`domain_width = 7`) with
`width = 1 > 0`, `gap = 8 ≥ 0`: the code expands the domain only to
`2*offset + 4 = 13`, leaving a margin of `13/2 - (4.5 + 0.5) = 1.5 < 4`
beyond the outer core edge. -/
theorem create_coupler_mesh_margin_counterexample :
    (create_coupler_mesh_geom
        ⟨(3.47, 0), (1.444, 0), (1, 0), 0.22, 0, 4, 7, 0.05⟩ 1 8).sim_width / 2
      - ((8 + 1) / 2 + 1 / 2) < 4 := by
  norm_num [create_coupler_mesh_geom, max_def]

/-- **C5, amended.**  `create_coupler_mesh` places the two core rectangles
with centers offset symmetrically by `±(gap+width)/2`, and auto-expands the
domain width to `max(domain_width, 2*offset + 4)`, so the domain boundary is
at least 2 microns beyond each core's centerline
(`sim_width/2 - (gap+width)/2 ≥ 2`) and the domain is never narrower than the
configured `domain_width`. -/
theorem create_coupler_mesh_geometry
    (t : WaveguideTemplate) (width gap : ℚ)
    (hw : 0 < width) (hg : 0 ≤ gap) :
    ((create_coupler_mesh_geom t width gap).core_left.centerX
        = -((gap + width) / 2))
    ∧ ((create_coupler_mesh_geom t width gap).core_right.centerX
        = (gap + width) / 2)
    ∧ (2 ≤ (create_coupler_mesh_geom t width gap).sim_width / 2
        - (gap + width) / 2)
    ∧ (t.domain_width ≤ (create_coupler_mesh_geom t width gap).sim_width) := by
  refine ⟨?_, ?_, ?_, ?_⟩
  · unfold create_coupler_mesh_geom Rect.centerX
    ring
  · unfold create_coupler_mesh_geom Rect.centerX
    ring
  · have h : 2 * ((gap + width) / 2) + 4
        ≤ (create_coupler_mesh_geom t width gap).sim_width :=
      le_max_right _ _
    linarith
  · exact le_max_left _ _

/-- Witness for C5 (amended) at `width = 0.5`, `gap = 0.2` on the default
template. -/
theorem create_coupler_mesh_geometry_witness :
    ((create_coupler_mesh_geom
        ⟨(3.47, 0), (1.444, 0), (1, 0), 0.22, 0, 4, 7, 0.05⟩ 0.5 0.2).core_left.centerX
        = -(((0.2 : ℚ) + 0.5) / 2))
    ∧ ((create_coupler_mesh_geom
        ⟨(3.47, 0), (1.444, 0), (1, 0), 0.22, 0, 4, 7, 0.05⟩ 0.5 0.2).core_right.centerX
        = ((0.2 : ℚ) + 0.5) / 2)
    ∧ (2 ≤ (create_coupler_mesh_geom
        ⟨(3.47, 0), (1.444, 0), (1, 0), 0.22, 0, 4, 7, 0.05⟩ 0.5 0.2).sim_width / 2
        - ((0.2 : ℚ) + 0.5) / 2)
    ∧ ((7 : ℚ) ≤ (create_coupler_mesh_geom
        ⟨(3.47, 0), (1.444, 0), (1, 0), 0.22, 0, 4, 7, 0.05⟩ 0.5 0.2).sim_width) :=
  create_coupler_mesh_geometry
    ⟨(3.47, 0), (1.444, 0), (1, 0), 0.22, 0, 4, 7, 0.05⟩ 0.5 0.2
    (by norm_num) (by norm_num)

/-! ## `WaveguideTemplate.solve_modes` / `solve_coupler`
(src/utils/fem_utils.py).  The femwell eigenmode solver `compute_modes` is an
external collaborator; it is a parameter of the embedded functions, taking the
geometric/physical arguments the source passes to it (width / gap /
wavelength) together with the requested number of modes. -/

/-- A solver-returned eigenmode: its complex effective index `n_eff`,
modelled by its real and imaginary parts (the field profile plays no role in
the wrapper logic). -/
structure Mode where
  n_eff_re : ℚ
  n_eff_im : ℚ
deriving DecidableEq

/-- `sorted(modes, key=lambda m: np.real(m.n_eff), reverse=True)`: stable sort
by descending real effective index. -/
def sort_modes (modes : List Mode) : List Mode :=
  modes.mergeSort (fun a b => decide (b.n_eff_re ≤ a.n_eff_re))

/-- `cutoff_index = max(np.real(self.n_clad), np.real(self.n_box))`. -/
def cutoff_index (t : WaveguideTemplate) : ℚ :=
  max t.n_clad.1 t.n_box.1

/-- `WaveguideTemplate.solve_modes` with the mesh/index-map construction and
the femwell call abstracted into the collaborator `compute_modes width
wavelength k` (the source requests `k = num_modes + 2` eigenmodes). -/
def solve_modes (t : WaveguideTemplate) (compute_modes : ℚ → ℚ → ℕ → List Mode)
    (width wavelength : ℚ) (num_modes : ℕ) : List Mode :=
  let modes := sort_modes (compute_modes width wavelength (num_modes + 2))
  modes.filter (fun m => decide (cutoff_index t + 1e-4 < m.n_eff_re))

/-- `WaveguideTemplate.solve_coupler` with the femwell call abstracted into
`compute_modes width gap wavelength k` (the source requests `k = 4`). -/
def solve_coupler (t : WaveguideTemplate)
    (compute_modes : ℚ → ℚ → ℚ → ℕ → List Mode)
    (width gap wavelength : ℚ) : Except String (ℚ × ℚ) :=
  let modes := sort_modes (compute_modes width gap wavelength 4)
  let guided := modes.filter
    (fun m => decide (cutoff_index t + 1e-4 < m.n_eff_re))
  if guided.length < 2 then
    .error "Fewer than 2 guided modes found."
  else
    .ok ((guided.getD 0 ⟨0, 0⟩).n_eff_re, (guided.getD 1 ⟨0, 0⟩).n_eff_re)

lemma sort_modes_sorted (l : List Mode) :
    List.Sorted (fun a b : Mode => b.n_eff_re ≤ a.n_eff_re) (sort_modes l) := by
  have h := @List.sorted_mergeSort Mode
    (fun a b : Mode => decide (b.n_eff_re ≤ a.n_eff_re))
    (fun a b c hab hbc => by
      simp only [decide_eq_true_eq] at *
      exact le_trans hbc hab)
    (fun a b => by
      simp only [Bool.or_eq_true, decide_eq_true_eq]
      exact le_total b.n_eff_re a.n_eff_re)
    l
  exact h.imp (fun {a b} hab => by simpa using hab)

lemma sort_modes_perm (l : List Mode) : (sort_modes l).Perm l :=
  List.mergeSort_perm l _

lemma solve_modes_example_eval :
    solve_modes ⟨(3.47, 0), (1.44, 0), (1.444, 0), 0.22, 0, 4, 7, 0.05⟩
        (fun _ _ _ => [⟨3.4, 0⟩, ⟨1.6, 0⟩, ⟨1.44, 0⟩, ⟨3.1, 0⟩]) 0.5 1.55 2
      = [⟨3.4, 0⟩, ⟨3.1, 0⟩, ⟨1.6, 0⟩] := by
  simp only [solve_modes, sort_modes, cutoff_index]
  norm_num [List.mergeSort, List.merge, List.filter]

/-- **C2, counterexample.**  At the spec's own example — solver-returned
effective indices `[3.4, 1.6, 1.44, 3.1]`, `n_clad = 1.444`, `n_box = 1.44` —
`solve_modes` does *not* return exactly `[3.4, 3.1]`: the index `1.6` also
exceeds the cutoff `1.444 + 1e-4`, so the code returns `[3.4, 3.1, 1.6]`. -/
theorem solve_modes_example_counterexample :
    (solve_modes ⟨(3.47, 0), (1.44, 0), (1.444, 0), 0.22, 0, 4, 7, 0.05⟩
        (fun _ _ _ => [⟨3.4, 0⟩, ⟨1.6, 0⟩, ⟨1.44, 0⟩, ⟨3.1, 0⟩]) 0.5 1.55 2).map
        Mode.n_eff_re = [3.4, 3.1, 1.6]
    ∧ (solve_modes ⟨(3.47, 0), (1.44, 0), (1.444, 0), 0.22, 0, 4, 7, 0.05⟩
        (fun _ _ _ => [⟨3.4, 0⟩, ⟨1.6, 0⟩, ⟨1.44, 0⟩, ⟨3.1, 0⟩]) 0.5 1.55 2).map
        Mode.n_eff_re ≠ [3.4, 3.1] := by
  rw [solve_modes_example_eval]
  refine ⟨rfl, ?_⟩
  simp

/-- **C2, amended.**  `solve_modes` requests `num_modes + 2` eigenmodes from
the solver, sorts them by descending real effective index, and returns exactly
the modes whose real effective index is strictly greater than
`max(Re n_clad, Re n_box) + 1e-4`, in descending order.  On the example with
solver-returned indices `[3.4, 1.6, 1.44, 3.1]` and cutoff `1.444` it returns
the indices `[3.4, 3.1, 1.6]` (not `[3.4, 3.1]`: `1.6` is also guided). -/
theorem solve_modes_guided_filter :
    (∀ (t : WaveguideTemplate) (compute_modes : ℚ → ℚ → ℕ → List Mode)
        (width wavelength : ℚ) (num_modes : ℕ),
      List.Sorted (fun a b : Mode => b.n_eff_re ≤ a.n_eff_re)
          (solve_modes t compute_modes width wavelength num_modes)
      ∧ (solve_modes t compute_modes width wavelength num_modes).Perm
          ((compute_modes width wavelength (num_modes + 2)).filter
            (fun m => decide (cutoff_index t + 1e-4 < m.n_eff_re)))
      ∧ ∀ m : Mode,
          m ∈ solve_modes t compute_modes width wavelength num_modes
            ↔ m ∈ compute_modes width wavelength (num_modes + 2)
              ∧ cutoff_index t + 1e-4 < m.n_eff_re)
    ∧ (solve_modes ⟨(3.47, 0), (1.44, 0), (1.444, 0), 0.22, 0, 4, 7, 0.05⟩
        (fun _ _ _ => [⟨3.4, 0⟩, ⟨1.6, 0⟩, ⟨1.44, 0⟩, ⟨3.1, 0⟩]) 0.5 1.55 2).map
        Mode.n_eff_re = [3.4, 3.1, 1.6] := by
  constructor
  · intro t compute_modes width wavelength num_modes
    refine ⟨?_, ?_, ?_⟩
    · exact List.Pairwise.filter _ (sort_modes_sorted _)
    · exact List.Perm.filter _ (sort_modes_perm _)
    · intro m
      simp [solve_modes, List.mem_filter, (sort_modes_perm _).mem_iff]
  · rw [solve_modes_example_eval]
    rfl

/-- **C3.**  `solve_coupler` requests exactly 4 eigenmodes from the solver;
when fewer than 2 of the returned modes are guided (real effective index
strictly above `max(Re n_clad, Re n_box) + 1e-4`) it raises the explicit
error, and when at least 2 are guided it returns normally. -/
theorem solve_coupler_guided_precondition (t : WaveguideTemplate)
    (compute_modes : ℚ → ℚ → ℚ → ℕ → List Mode) (width gap wavelength : ℚ) :
    (((compute_modes width gap wavelength 4).countP
        (fun m => decide (cutoff_index t + 1e-4 < m.n_eff_re)) < 2) →
      solve_coupler t compute_modes width gap wavelength
        = .error "Fewer than 2 guided modes found.")
    ∧ ((2 ≤ (compute_modes width gap wavelength 4).countP
        (fun m => decide (cutoff_index t + 1e-4 < m.n_eff_re))) →
      ∃ x y, solve_coupler t compute_modes width gap wavelength
        = .ok (x, y)) := by
  have hcount :
      ((sort_modes (compute_modes width gap wavelength 4)).filter
          (fun m => decide (cutoff_index t + 1e-4 < m.n_eff_re))).length
        = (compute_modes width gap wavelength 4).countP
            (fun m => decide (cutoff_index t + 1e-4 < m.n_eff_re)) := by
    rw [← List.countP_eq_length_filter]
    exact (sort_modes_perm _).countP_eq _
  constructor
  · intro h
    unfold solve_coupler
    rw [if_pos (by rw [hcount]; exact h)]
  · intro h
    unfold solve_coupler
    rw [if_neg (by rw [hcount]; omega)]
    exact ⟨_, _, rfl⟩

/-- Witness for C3: a solver answer with exactly one guided mode makes
`solve_coupler` raise, and one with two guided modes makes it return
normally. -/
theorem solve_coupler_guided_precondition_witness :
    (solve_coupler ⟨(3.47, 0), (1.44, 0), (1.444, 0), 0.22, 0, 4, 7, 0.05⟩
        (fun _ _ _ _ => [⟨3.4, 0⟩, ⟨1.2, 0⟩]) 0.5 0.2 1.55
      = .error "Fewer than 2 guided modes found.")
    ∧ (∃ x y,
        solve_coupler ⟨(3.47, 0), (1.44, 0), (1.444, 0), 0.22, 0, 4, 7, 0.05⟩
          (fun _ _ _ _ => [⟨3.4, 0⟩, ⟨3.1, 0⟩, ⟨1.2, 0⟩]) 0.5 0.2 1.55
          = .ok (x, y)) := by
  constructor
  · refine (solve_coupler_guided_precondition
      ⟨(3.47, 0), (1.44, 0), (1.444, 0), 0.22, 0, 4, 7, 0.05⟩
      (fun _ _ _ _ => [⟨3.4, 0⟩, ⟨1.2, 0⟩]) 0.5 0.2 1.55).1 ?_
    norm_num [List.countP, List.countP.go, cutoff_index]
  · refine (solve_coupler_guided_precondition
      ⟨(3.47, 0), (1.44, 0), (1.444, 0), 0.22, 0, 4, 7, 0.05⟩
      (fun _ _ _ _ => [⟨3.4, 0⟩, ⟨3.1, 0⟩, ⟨1.2, 0⟩]) 0.5 0.2 1.55).2 ?_
    norm_num [List.countP, List.countP.go, cutoff_index]

/-! ## `WaveguideTemplate._build_index_map` (src/utils/fem_utils.py).
A complex refractive-index value is a real/imaginary pair `ℚ × ℚ` (added
componentwise).  An `ElementTriP0` basis has one degree of freedom per mesh
element, and the named subdomains partition the elements, so a mesh is
modelled as a number of dofs together with the subdomain name of each dof;
`subname in mesh.subdomains` is membership of the name in the image.  The
skfem projection `basis0.project(perturbation_func)` is an external
collaborator, so the projected per-dof array `dn` is taken as the input. -/

/-- A complex refractive-index value: (real part, imaginary part). -/
abbrev CIndex : Type := ℚ × ℚ

/-- A 2D cross-section mesh with a P0 (one dof per element) basis: the dof
count and each dof's subdomain name. -/
structure Mesh where
  ndofs : ℕ
  subdomain : Fin ndofs → String

/-- The dictionary `material_map = {"core": n_core, "slab": n_core,
"box": n_box, "clad_top": n_clad}` of `_build_index_map`, in its Python
iteration order. -/
def material_map (t : WaveguideTemplate) : List (String × CIndex) :=
  [("core", t.n_core), ("slab", t.n_core), ("box", t.n_box),
   ("clad_top", t.n_clad)]

/-- One iteration of the static-material loop of `_build_index_map`:
`if subname in mesh.subdomains: n_map[basis0.get_dofs(elements=subname)] =
n_val`. -/
def assign_subdomain (m : Mesh) (nm : Fin m.ndofs → CIndex) (subname : String)
    (v : CIndex) : Fin m.ndofs → CIndex :=
  if _h : ∃ d, m.subdomain d = subname then
    fun d => if m.subdomain d = subname then v else nm d
  else nm

/-- The static part of `_build_index_map` (step 1 of the source: zeros, then
the `material_map` loop). -/
def static_index_map (t : WaveguideTemplate) (m : Mesh) :
    Fin m.ndofs → CIndex :=
  (material_map t).foldl (fun nm p => assign_subdomain m nm p.1 p.2)
    (fun _ => (0, 0))

/-- One iteration of the perturbation loop of `_build_index_map`:
`if semi_region in mesh.subdomains: dofs = basis0.get_dofs(elements=semi_region);
n_map[dofs] += dn[dofs]`. -/
def perturb_region (m : Mesh) (dn : Fin m.ndofs → CIndex)
    (nm : Fin m.ndofs → CIndex) (region : String) : Fin m.ndofs → CIndex :=
  if _h : ∃ d, m.subdomain d = region then
    fun d => if m.subdomain d = region then nm d + dn d else nm d
  else nm

/-- `WaveguideTemplate._build_index_map`: static materials, then (when a
perturbation is supplied) `n_map[dofs] += dn[dofs]` for the regions
`["core", "slab"]` that are present in the mesh. -/
def build_index_map (t : WaveguideTemplate) (m : Mesh)
    (perturbation : Option (Fin m.ndofs → CIndex)) : Fin m.ndofs → CIndex :=
  match perturbation with
  | none => static_index_map t m
  | some dn =>
    ["core", "slab"].foldl (perturb_region m dn) (static_index_map t m)

lemma assign_subdomain_apply (m : Mesh) (nm : Fin m.ndofs → CIndex)
    (subname : String) (v : CIndex) (d : Fin m.ndofs) :
    assign_subdomain m nm subname v d
      = if m.subdomain d = subname then v else nm d := by
  unfold assign_subdomain
  split
  · rfl
  · rename_i h
    rw [if_neg (fun hc => h ⟨d, hc⟩)]

lemma static_index_map_apply (t : WaveguideTemplate) (m : Mesh)
    (d : Fin m.ndofs) :
    static_index_map t m d
      = if m.subdomain d = "clad_top" then t.n_clad
        else if m.subdomain d = "box" then t.n_box
        else if m.subdomain d = "slab" then t.n_core
        else if m.subdomain d = "core" then t.n_core
        else (0, 0) := by
  simp only [static_index_map, material_map, List.foldl_cons, List.foldl_nil,
    assign_subdomain_apply]

lemma perturb_region_apply (m : Mesh) (dn nm : Fin m.ndofs → CIndex)
    (region : String) (d : Fin m.ndofs) :
    perturb_region m dn nm region d
      = if m.subdomain d = region then nm d + dn d else nm d := by
  unfold perturb_region
  split
  · rfl
  · rename_i h
    rw [if_neg (fun hc => h ⟨d, hc⟩)]

lemma build_index_map_some_apply (t : WaveguideTemplate) (m : Mesh)
    (dn : Fin m.ndofs → CIndex) (d : Fin m.ndofs) :
    build_index_map t m (some dn) d
      = if m.subdomain d = "slab" then static_index_map t m d + dn d
        else if m.subdomain d = "core" then static_index_map t m d + dn d
        else static_index_map t m d := by
  simp only [build_index_map, List.foldl_cons, List.foldl_nil,
    perturb_region_apply]
  by_cases hslab : m.subdomain d = "slab"
  · have hcore : ¬ m.subdomain d = "core" := by rw [hslab]; decide
    simp only [if_pos hslab, if_neg hcore]
  · by_cases hcore : m.subdomain d = "core"
    · simp only [if_pos hcore, if_neg hslab]
    · simp only [if_neg hcore, if_neg hslab]

/-- **C9.**  `_build_index_map` perturbs only core/slab degrees of freedom:
on `box` dofs the value is the static `n_box`, on `clad_top` dofs the static
`n_clad`, regardless of the supplied per-dof perturbation `dn`; and on every
dof outside `core`/`slab` the perturbed map agrees with the unperturbed
one. -/
theorem build_index_map_perturbs_only_core_slab (t : WaveguideTemplate)
    (m : Mesh) (dn : Fin m.ndofs → CIndex) (d : Fin m.ndofs) :
    (m.subdomain d = "box" →
      build_index_map t m (some dn) d = t.n_box
      ∧ build_index_map t m (some dn) d = build_index_map t m none d)
    ∧ (m.subdomain d = "clad_top" →
      build_index_map t m (some dn) d = t.n_clad
      ∧ build_index_map t m (some dn) d = build_index_map t m none d)
    ∧ (m.subdomain d ≠ "core" → m.subdomain d ≠ "slab" →
      build_index_map t m (some dn) d = build_index_map t m none d) := by
  have hnone : build_index_map t m none d = static_index_map t m d := rfl
  refine ⟨fun hbox => ⟨?_, ?_⟩, fun hclad => ⟨?_, ?_⟩, fun hc hs => ?_⟩
  · have hs : m.subdomain d ≠ "slab" := by rw [hbox]; decide
    have hc : m.subdomain d ≠ "core" := by rw [hbox]; decide
    have hct : m.subdomain d ≠ "clad_top" := by rw [hbox]; decide
    rw [build_index_map_some_apply, if_neg hs, if_neg hc,
      static_index_map_apply, if_neg hct, if_pos hbox]
  · have hs : m.subdomain d ≠ "slab" := by rw [hbox]; decide
    have hc : m.subdomain d ≠ "core" := by rw [hbox]; decide
    rw [build_index_map_some_apply, if_neg hs, if_neg hc, hnone]
  · have hs : m.subdomain d ≠ "slab" := by rw [hclad]; decide
    have hc : m.subdomain d ≠ "core" := by rw [hclad]; decide
    rw [build_index_map_some_apply, if_neg hs, if_neg hc,
      static_index_map_apply, if_pos hclad]
  · have hs : m.subdomain d ≠ "slab" := by rw [hclad]; decide
    have hc : m.subdomain d ≠ "core" := by rw [hclad]; decide
    rw [build_index_map_some_apply, if_neg hs, if_neg hc, hnone]
  · rw [build_index_map_some_apply, if_neg hs, if_neg hc, hnone]

/-- Witness for C9 on a concrete 4-dof mesh (one dof in each of core, slab,
box, clad_top) with a nonzero perturbation: the box dof keeps the static
`n_box = 1.44` and agrees with the unperturbed map. -/
theorem build_index_map_perturbs_only_core_slab_witness :
    build_index_map ⟨(3.47, 0), (1.44, 0), (1.444, 0), 0.22, 0, 4, 7, 0.05⟩
        ⟨4, fun d => ["core", "slab", "box", "clad_top"].getD (d : ℕ) ""⟩
        (some (fun _ => (1, 1))) ⟨2, by decide⟩
      = (1.44, 0)
    ∧ build_index_map ⟨(3.47, 0), (1.44, 0), (1.444, 0), 0.22, 0, 4, 7, 0.05⟩
        ⟨4, fun d => ["core", "slab", "box", "clad_top"].getD (d : ℕ) ""⟩
        (some (fun _ => (1, 1))) ⟨2, by decide⟩
      = build_index_map ⟨(3.47, 0), (1.44, 0), (1.444, 0), 0.22, 0, 4, 7, 0.05⟩
        ⟨4, fun d => ["core", "slab", "box", "clad_top"].getD (d : ℕ) ""⟩
        none ⟨2, by decide⟩ :=
  (build_index_map_perturbs_only_core_slab
    ⟨(3.47, 0), (1.44, 0), (1.444, 0), 0.22, 0, 4, 7, 0.05⟩
    ⟨4, fun d => ["core", "slab", "box", "clad_top"].getD (d : ℕ) ""⟩
    (fun _ => (1, 1)) ⟨2, by decide⟩).1 rfl

/-! ## `SParameterExporter.export_to_touchstone` (src/utils/export_utils.py):
frequency conversion and the descending-to-ascending reorder.  `s_dict` is
the dictionary `{(port_in, port_out): complex_array}`; since the reorder
treats the arrays opaquely, their entries are modelled as `ℚ × ℚ`
(real/imaginary parts). -/

/-- `freq_hz = c_m_s / (wvl * 1e-6)` with `c_m_s = 299792458`, elementwise
over the micron wavelength array. -/
def freq_axis (wvl : List ℚ) : List ℚ :=
  wvl.map (fun w => 299792458 / (w * 1e-6))

/-- The reorder step of `export_to_touchstone`:
`if freq_hz[0] > freq_hz[-1]: freq_hz = np.flip(freq_hz);
for k, v in s_dict.items(): s_dict[k] = np.flip(v)`.
The returned pair is (frequency axis used for the file, state of `s_dict`
after the call). -/
def export_reorder (wvl : List ℚ)
    (s_dict : List ((String × String) × List (ℚ × ℚ))) :
    List ℚ × List ((String × String) × List (ℚ × ℚ)) :=
  let freq := freq_axis wvl
  if freq.headD 0 > freq.getLastD 0 then
    (freq.reverse, s_dict.map (fun kv => (kv.1, kv.2.reverse)))
  else (freq, s_dict)

lemma headD_gt_getLastD_of_descending (l : List ℚ)
    (hlen : 2 ≤ l.length) (h : List.Chain' (· > ·) l) :
    l.headD 0 > l.getLastD 0 := by
  have hp : List.Pairwise (· > ·) l := List.chain'_iff_pairwise.mp h
  have h01 : l.get ⟨0, by omega⟩ > l.get ⟨l.length - 1, by omega⟩ :=
    List.pairwise_iff_get.mp hp ⟨0, by omega⟩ ⟨l.length - 1, by omega⟩
      (Fin.mk_lt_mk.mpr (by omega))
  rw [List.headD_eq_head?, List.head?_eq_getElem?,
    List.getLastD_eq_getLast?, List.getLast?_eq_getElem?,
    List.getElem?_eq_getElem (by omega : 0 < l.length),
    List.getElem?_eq_getElem (by omega : l.length - 1 < l.length)]
  simpa using h01

lemma headD_le_getLastD_of_ascending (l : List ℚ)
    (h : List.Chain' (· < ·) l) :
    l.headD 0 ≤ l.getLastD 0 := by
  rcases l with _ | ⟨a, _ | ⟨b, tl⟩⟩
  · simp
  · simp
  · set l := a :: b :: tl with hl
    have hlen : 2 ≤ l.length := by simp [hl]
    have hp : List.Pairwise (· < ·) l := List.chain'_iff_pairwise.mp h
    have h01 : l.get ⟨0, by omega⟩ < l.get ⟨l.length - 1, by omega⟩ :=
      List.pairwise_iff_get.mp hp ⟨0, by omega⟩ ⟨l.length - 1, by omega⟩
        (Fin.mk_lt_mk.mpr (by omega))
    rw [List.headD_eq_head?, List.head?_eq_getElem?,
      List.getLastD_eq_getLast?, List.getLast?_eq_getElem?,
      List.getElem?_eq_getElem (by omega : 0 < l.length),
      List.getElem?_eq_getElem (by omega : l.length - 1 < l.length)]
    simpa using le_of_lt h01

lemma zip_reverse_of_length_eq {α β : Type} (l1 : List α) (l2 : List β)
    (h : l1.length = l2.length) :
    l1.reverse.zip l2.reverse = (l1.zip l2).reverse :=
  (List.reverse_zipWith h).symm

/-- **C6.**  When the derived frequency axis `c / (wvl * 1e-6)` is descending
(of length at least 2), `export_to_touchstone` flips the frequency axis — the
file's axis is its reverse, which is ascending — and flips every S-array in
lockstep, so the written (frequency, S-value) pairs are exactly the original
pairs in reverse order.  When the frequency axis is already ascending nothing
is flipped. -/
theorem export_to_touchstone_frequency_ascending (wvl : List ℚ)
    (s_dict : List ((String × String) × List (ℚ × ℚ))) :
    (List.Chain' (· > ·) (freq_axis wvl) → 2 ≤ wvl.length →
      ((export_reorder wvl s_dict).1 = (freq_axis wvl).reverse
      ∧ List.Chain' (· < ·) (export_reorder wvl s_dict).1
      ∧ ∀ kv ∈ s_dict,
          (kv.1, kv.2.reverse) ∈ (export_reorder wvl s_dict).2
          ∧ (kv.2.length = wvl.length →
              (export_reorder wvl s_dict).1.zip kv.2.reverse
                = ((freq_axis wvl).zip kv.2).reverse)))
    ∧ (List.Chain' (· < ·) (freq_axis wvl) →
      export_reorder wvl s_dict = (freq_axis wvl, s_dict)) := by
  constructor
  · intro hdesc hlen
    have hflen : 2 ≤ (freq_axis wvl).length := by
      simpa [freq_axis] using hlen
    have hcond : (freq_axis wvl).headD 0 > (freq_axis wvl).getLastD 0 :=
      headD_gt_getLastD_of_descending _ hflen hdesc
    have hre : export_reorder wvl s_dict
        = ((freq_axis wvl).reverse,
           s_dict.map (fun kv => (kv.1, kv.2.reverse))) := by
      unfold export_reorder
      rw [if_pos hcond]
    refine ⟨by rw [hre], ?_, ?_⟩
    · rw [hre]
      exact List.chain'_reverse.mpr (by simpa [flip] using hdesc)
    · intro kv hkv
      constructor
      · rw [hre]
        exact List.mem_map.mpr ⟨kv, hkv, rfl⟩
      · intro hkvlen
        rw [hre]
        exact zip_reverse_of_length_eq _ _ (by simp [freq_axis, hkvlen])
  · intro hasc
    have hcond : ¬ ((freq_axis wvl).headD 0 > (freq_axis wvl).getLastD 0) :=
      not_lt.mpr (headD_le_getLastD_of_ascending _ hasc)
    unfold export_reorder
    rw [if_neg hcond]

/-- Witness for C6: wavelengths `[1.5, 1.6]` µm give a descending frequency
axis; the exported axis is the reversed (ascending) one and the single
S-array is reversed in lockstep. -/
theorem export_to_touchstone_frequency_ascending_witness :
    ((export_reorder [1.5, 1.6] [(("o1", "o2"), [(1, 0), (2, 0)])]).1
      = (freq_axis [1.5, 1.6]).reverse)
    ∧ List.Chain' (· < ·)
        (export_reorder [1.5, 1.6] [(("o1", "o2"), [(1, 0), (2, 0)])]).1
    ∧ ((("o1", "o2"), [((2 : ℚ), (0 : ℚ)), (1, 0)])
        ∈ (export_reorder [1.5, 1.6] [(("o1", "o2"), [(1, 0), (2, 0)])]).2) := by
  have hdesc : List.Chain' (· > ·) (freq_axis [1.5, 1.6]) := by
    norm_num [freq_axis, List.chain'_cons, List.chain'_singleton]
  have h := (export_to_touchstone_frequency_ascending [1.5, 1.6]
    [(("o1", "o2"), [(1, 0), (2, 0)])]).1 hdesc (by norm_num)
  refine ⟨h.1, h.2.1, ?_⟩
  have h2 := (h.2.2 (("o1", "o2"), [(1, 0), (2, 0)])
    (by simp)).1
  simpa using h2

/-- **C10.**  When the derived frequency axis is descending,
`export_to_touchstone` mutates the caller's `s_dict` in place: after the call
every stored array is reversed (same keys, reversed values); when the
frequency axis is ascending, `s_dict` is left unchanged. -/
theorem export_to_touchstone_mutates_s_dict (wvl : List ℚ)
    (s_dict : List ((String × String) × List (ℚ × ℚ))) :
    (List.Chain' (· > ·) (freq_axis wvl) → 2 ≤ wvl.length →
      (export_reorder wvl s_dict).2
        = s_dict.map (fun kv => (kv.1, kv.2.reverse)))
    ∧ (List.Chain' (· < ·) (freq_axis wvl) →
      (export_reorder wvl s_dict).2 = s_dict) := by
  constructor
  · intro hdesc hlen
    have hflen : 2 ≤ (freq_axis wvl).length := by
      simpa [freq_axis] using hlen
    have hcond : (freq_axis wvl).headD 0 > (freq_axis wvl).getLastD 0 :=
      headD_gt_getLastD_of_descending _ hflen hdesc
    unfold export_reorder
    rw [if_pos hcond]
  · intro hasc
    have hcond : ¬ ((freq_axis wvl).headD 0 > (freq_axis wvl).getLastD 0) :=
      not_lt.mpr (headD_le_getLastD_of_ascending _ hasc)
    unfold export_reorder
    rw [if_neg hcond]

/-- Witness for C10: with descending-frequency input (`wvl = [1.5, 1.6]`,
ascending wavelength) the stored array comes back reversed; with
ascending-frequency input (`wvl = [1.6, 1.5]`) the dictionary is
unchanged. -/
theorem export_to_touchstone_mutates_s_dict_witness :
    ((export_reorder [1.5, 1.6] [(("o1", "o2"), [(1, 0), (2, 0)])]).2
      = [(("o1", "o2"), [((2 : ℚ), (0 : ℚ)), (1, 0)])])
    ∧ ((export_reorder [1.6, 1.5] [(("o1", "o2"), [(1, 0), (2, 0)])]).2
      = [(("o1", "o2"), [((1 : ℚ), (0 : ℚ)), (2, 0)])]) := by
  constructor
  · have h := (export_to_touchstone_mutates_s_dict [1.5, 1.6]
      [(("o1", "o2"), [(1, 0), (2, 0)])]).1
      (by norm_num [freq_axis, List.chain'_cons, List.chain'_singleton])
      (by norm_num)
    simpa using h
  · have h := (export_to_touchstone_mutates_s_dict [1.6, 1.5]
      [(("o1", "o2"), [(1, 0), (2, 0)])]).2
      (by norm_num [freq_axis, List.chain'_cons, List.chain'_singleton])
    simpa using h

/-! ## `SParameterExporter.export_to_touchstone` (src/utils/export_utils.py):
assembly of the `N_freqs × N_ports × N_ports` S-matrix.  The shape of the
matrix is carried by the type `Fin n_points → Fin port_map.length →
Fin port_map.length → ℚ × ℚ` (complex entries as real/imaginary pairs). -/

/-- `p_idx = {name: i for i, name in enumerate(port_map)}`, looked up at
`name`: the index of the *last* occurrence of `name` in `port_map` (a Python
dict comprehension keeps the last binding), or `none` when `name` is not a
key. -/
def p_idx (port_map : List String) (name : String) :
    Option (Fin port_map.length) :=
  ((List.finRange port_map.length).filter
    (fun k => port_map.get k = name)).getLast?

/-- The S-matrix assembly loop of `export_to_touchstone`:
`s_matrix = np.zeros((n_points, n_ports, n_ports), dtype=complex)`, then for
each `((p_in, p_out), data)` in `s_dict`, when both port names are in
`p_idx`, `s_matrix[:, p_idx[p_out], p_idx[p_in]] = data`. -/
def build_s_matrix (n_points : ℕ) (port_map : List String)
    (s_dict : List ((String × String) × List (ℚ × ℚ))) :
    Fin n_points → Fin port_map.length → Fin port_map.length → ℚ × ℚ :=
  s_dict.foldl (fun m kv =>
    match p_idx port_map kv.1.2, p_idx port_map kv.1.1 with
    | some i, some j =>
      fun f a b => if a = i ∧ b = j then kv.2.getD (f : ℕ) (0, 0) else m f a b
    | _, _ => m)
    (fun _ _ _ => (0, 0))

lemma p_idx_get (pm : List String) (nm : String) (k : Fin pm.length)
    (h : p_idx pm nm = some k) : pm.get k = nm := by
  unfold p_idx at h
  have hk := List.mem_of_mem_getLast? h
  exact of_decide_eq_true (List.mem_filter.mp hk).2

lemma p_idx_eq_none_iff (pm : List String) (nm : String) :
    p_idx pm nm = none ↔ nm ∉ pm := by
  unfold p_idx
  rw [List.getLast?_eq_none_iff, List.filter_eq_nil_iff]
  constructor
  · intro h hmem
    rcases List.mem_iff_get.mp hmem with ⟨k, hk⟩
    exact h k (List.mem_finRange k) (decide_eq_true hk)
  · intro h k _ hk
    exact h (List.mem_iff_get.mpr ⟨k, of_decide_eq_true hk⟩)

/-- The predicate selecting the unique `s_dict` entry that targets matrix
cell `(i, j)` (out-index `i`, in-index `j`). -/
def targets_cell (pm : List String) (i j : Fin pm.length)
    (kv : (String × String) × List (ℚ × ℚ)) : Bool :=
  decide (p_idx pm kv.1.2 = some i) && decide (p_idx pm kv.1.1 = some j)

lemma build_s_matrix_find (n_points : ℕ) (pm : List String)
    (sd : List ((String × String) × List (ℚ × ℚ)))
    (hkeys : (sd.map Prod.fst).Nodup)
    (f : Fin n_points) (i j : Fin pm.length) :
    build_s_matrix n_points pm sd f i j
      = match sd.find? (targets_cell pm i j) with
        | some kv => kv.2.getD (f : ℕ) (0, 0)
        | none => (0, 0) := by
  induction sd using List.reverseRecOn with
  | nil => simp [build_s_matrix]
  | append_singleton sd kv ih =>
    have hkeys' : (sd.map Prod.fst).Nodup := by
      rw [List.map_append] at hkeys
      exact (List.nodup_append.mp hkeys).1
    have hstep : build_s_matrix n_points pm (sd ++ [kv])
        = (fun m kv =>
            match p_idx pm kv.1.2, p_idx pm kv.1.1 with
            | some i, some j =>
              fun f a b =>
                if a = i ∧ b = j then kv.2.getD (f : ℕ) (0, 0) else m f a b
            | _, _ => m) (build_s_matrix n_points pm sd) kv := by
      unfold build_s_matrix
      rw [List.foldl_append]
      rfl
    rw [List.find?_append, hstep]
    rcases hout : p_idx pm kv.1.2 with _ | i'
    · have hkvfalse : targets_cell pm i j kv = false := by
        unfold targets_cell
        rw [hout]
        simp
      rw [List.find?_singleton, if_neg (by rw [hkvfalse]; simp)]
      simp only [Option.or_none, hout]
      exact ih hkeys'
    · rcases hin : p_idx pm kv.1.1 with _ | j'
      · have hkvfalse : targets_cell pm i j kv = false := by
          unfold targets_cell
          rw [hin]
          simp
        rw [List.find?_singleton, if_neg (by rw [hkvfalse]; simp)]
        simp only [Option.or_none, hout, hin]
        exact ih hkeys'
      · simp only [hout, hin]
        by_cases hij : i = i' ∧ j = j'
        · have hkvtrue : targets_cell pm i j kv = true := by
            unfold targets_cell
            rw [hout, hin, hij.1, hij.2]
            simp
          have hnone : sd.find? (targets_cell pm i j) = none := by
            rw [List.find?_eq_none]
            intro kv' hkv' hpred
            have h2 : p_idx pm kv'.1.2 = some i
                ∧ p_idx pm kv'.1.1 = some j := by
              unfold targets_cell at hpred
              simp only [Bool.and_eq_true, decide_eq_true_eq] at hpred
              exact hpred
            have hineq : kv'.1 = kv.1 := by
              have e1 : kv'.1.2 = kv.1.2 :=
                (p_idx_get pm kv'.1.2 i h2.1).symm.trans
                  (p_idx_get pm kv.1.2 i (by rw [hout, hij.1]))
              have e2 : kv'.1.1 = kv.1.1 :=
                (p_idx_get pm kv'.1.1 j h2.2).symm.trans
                  (p_idx_get pm kv.1.1 j (by rw [hin, hij.2]))
              exact Prod.ext e2 e1
            have hmem : kv.1 ∈ sd.map Prod.fst :=
              hineq ▸ List.mem_map_of_mem Prod.fst hkv'
            rw [List.map_append] at hkeys
            rcases List.nodup_append.mp hkeys with ⟨-, -, hdisj⟩
            exact hdisj hmem (by simp)
          rw [hnone, List.find?_singleton, if_pos hkvtrue]
          simp only [Option.none_or]
          rw [if_pos ⟨hij.1, hij.2⟩]
        · have hkvfalse : targets_cell pm i j kv = false := by
            unfold targets_cell
            rw [hout, hin]
            simp only [Bool.and_eq_false_iff, decide_eq_false_iff_not]
            rcases not_and_or.mp hij with h | h
            · exact Or.inl (fun hc => h (Option.some.inj hc).symm)
            · exact Or.inr (fun hc => h (Option.some.inj hc).symm)
          have hfind1 : List.find? (targets_cell pm i j) [kv] = none := by
            rw [List.find?_singleton, if_neg (by rw [hkvfalse]; simp)]
          rw [hfind1]
          simp only [Option.or_none]
          rw [if_neg hij]
          exact ih hkeys'

/-- **C7.**  The S-matrix assembled by `export_to_touchstone` (of shape
`n_points × P × P`, carried by its type, `P = len(port_map)`) is
characterized, for distinct `s_dict` keys, by: the cell `(f, i, j)` holds
`data[f]` of the unique entry `((p_in, p_out), data)` with
`p_idx[p_out] = i` and `p_idx[p_in] = j`, and `0` when no entry maps there;
entries whose port names are not both in `port_map` are silently dropped
(filtering them away leaves the matrix unchanged). -/
theorem export_to_touchstone_s_matrix (n_points : ℕ) (port_map : List String)
    (s_dict : List ((String × String) × List (ℚ × ℚ)))
    (hkeys : (s_dict.map Prod.fst).Nodup)
    (f : Fin n_points) (i j : Fin port_map.length) :
    (build_s_matrix n_points port_map s_dict f i j
      = match s_dict.find? (targets_cell port_map i j) with
        | some kv => kv.2.getD (f : ℕ) (0, 0)
        | none => (0, 0))
    ∧ ((∀ kv ∈ s_dict, ¬ targets_cell port_map i j kv = true) →
        build_s_matrix n_points port_map s_dict f i j = (0, 0))
    ∧ (build_s_matrix n_points port_map s_dict
        = build_s_matrix n_points port_map
            (s_dict.filter (fun kv =>
              decide (kv.1.1 ∈ port_map) && decide (kv.1.2 ∈ port_map)))) := by
  refine ⟨build_s_matrix_find n_points port_map s_dict hkeys f i j,
    fun hnone => ?_, ?_⟩
  · rw [build_s_matrix_find n_points port_map s_dict hkeys f i j,
      List.find?_eq_none.mpr hnone]
  · unfold build_s_matrix
    clear hkeys f i j
    induction s_dict using List.reverseRecOn with
    | nil => rfl
    | append_singleton sd kv ih =>
      rw [List.filter_append, List.foldl_append, List.foldl_append, ← ih,
        List.filter_singleton]
      rcases hout : p_idx port_map kv.1.2 with _ | i'
      · have hnm : kv.1.2 ∉ port_map := (p_idx_eq_none_iff _ _).mp hout
        have hc : (decide (kv.1.1 ∈ port_map)
            && decide (kv.1.2 ∈ port_map)) = false := by
          simp [hnm]
        rw [hc]
        simp only [Bool.cond_false, List.foldl_cons, List.foldl_nil, hout]
      · rcases hin : p_idx port_map kv.1.1 with _ | j'
        · have hnm : kv.1.1 ∉ port_map := (p_idx_eq_none_iff _ _).mp hin
          have hc : (decide (kv.1.1 ∈ port_map)
              && decide (kv.1.2 ∈ port_map)) = false := by
            simp [hnm]
          rw [hc]
          simp only [Bool.cond_false, List.foldl_cons, List.foldl_nil, hout,
            hin]
        · have h2 : kv.1.2 ∈ port_map := by
            by_contra hc
            rw [(p_idx_eq_none_iff _ _).mpr hc] at hout
            exact Option.noConfusion hout
          have h1 : kv.1.1 ∈ port_map := by
            by_contra hc
            rw [(p_idx_eq_none_iff _ _).mpr hc] at hin
            exact Option.noConfusion hin
          have hc : (decide (kv.1.1 ∈ port_map)
              && decide (kv.1.2 ∈ port_map)) = true := by
            simp [h1, h2]
          rw [hc]
          rfl

/-- Witness for C7 on `port_map = ["o1", "o2"]` and the single entry
`(("o1", "o2"), [(2, 0)])`: the cell `[0, idx(o2)=1, idx(o1)=0]` holds the
data value `(2, 0)` and an unmapped cell reads back zero. -/
theorem export_to_touchstone_s_matrix_witness :
    (build_s_matrix 1 ["o1", "o2"] [(("o1", "o2"), [(2, 0)])]
        ⟨0, by decide⟩ ⟨1, by decide⟩ ⟨0, by decide⟩ = (2, 0))
    ∧ (build_s_matrix 1 ["o1", "o2"] [(("o1", "o2"), [(2, 0)])]
        ⟨0, by decide⟩ ⟨0, by decide⟩ ⟨1, by decide⟩ = (0, 0)) := by
  constructor
  · have h := (export_to_touchstone_s_matrix 1 ["o1", "o2"]
      [(("o1", "o2"), [(2, 0)])] (by simp)
      ⟨0, by decide⟩ ⟨1, by decide⟩ ⟨0, by decide⟩).1
    rw [h]
    rfl
  · have h := (export_to_touchstone_s_matrix 1 ["o1", "o2"]
      [(("o1", "o2"), [(2, 0)])] (by simp)
      ⟨0, by decide⟩ ⟨0, by decide⟩ ⟨1, by decide⟩).1
    rw [h]
    rfl

/-! ## `interpolate_design_parameter` (src/utils/general_utils.py).
Swept results may contain the non-finite floats NaN/±Inf (failed
simulations); a float sample is modelled as either a finite rational or one
of those.  The scipy interpolator `interp1d(x, y, kind,
fill_value="extrapolate")` evaluated at the target is an external
collaborator, passed as the parameter `interp`. -/

/-- A floating-point sample value: finite, NaN, or ±infinity. -/
inductive FloatValue where
  | finite (q : ℚ)
  | nan
  | posInf
  | negInf
deriving DecidableEq

/-- `np.isfinite`. -/
def FloatValue.isFinite : FloatValue → Bool
  | .finite _ => true
  | _ => false

/-- The masking step `mask = np.isfinite(y); x_clean = x[mask];
y_clean = y[mask]` of `interpolate_design_parameter`, as the list of kept
`(x, y)` pairs. -/
def clean_sweep (x_sweep : List ℚ) (y_sweep : List FloatValue) :
    List (ℚ × ℚ) :=
  (x_sweep.zip y_sweep).filterMap (fun p =>
    match p.2 with
    | .finite q => some (p.1, q)
    | _ => none)

/-- `interpolate_design_parameter` with the scipy call abstracted into
`interp x_clean y_clean kind target`.  The result pairs the out-of-range
warning flag (the source prints a warning and continues) with the
interpolated scalar; the insufficient-data case raises. -/
def interpolate_design_parameter
    (interp : List ℚ → List ℚ → String → ℚ → ℚ)
    (x_sweep : List ℚ) (y_sweep : List FloatValue) (target_x : ℚ)
    (interpolation_type : String) : Except String (Bool × ℚ) :=
  let x_clean := (clean_sweep x_sweep y_sweep).map Prod.fst
  let y_clean := (clean_sweep x_sweep y_sweep).map Prod.snd
  if x_clean.length < 2 then
    .error "Insufficient valid data points for interpolation."
  else
    let warned := decide (target_x < (x_clean.min?.getD 0)
      ∨ target_x > (x_clean.max?.getD 0))
    .ok (warned, interp x_clean y_clean interpolation_type target_x)

lemma clean_sweep_length (x_sweep : List ℚ) (y_sweep : List FloatValue)
    (hlen : x_sweep.length = y_sweep.length) :
    (clean_sweep x_sweep y_sweep).length
      = (y_sweep.filter FloatValue.isFinite).length := by
  induction y_sweep generalizing x_sweep with
  | nil =>
    have : x_sweep = [] := List.length_eq_zero.mp hlen
    simp [this, clean_sweep]
  | cons hd tl ih =>
    rcases x_sweep with _ | ⟨a, xtl⟩
    · simp at hlen
    · simp only [List.length_cons, Nat.succ.injEq] at hlen
      rcases hd with q | _ | _ | _ <;>
        simp [clean_sweep, List.filter_cons, FloatValue.isFinite,
          ← ih xtl hlen, clean_sweep]

/-- **C8.**  `interpolate_design_parameter` removes exactly the samples whose
y-value is non-finite, raises precisely when fewer than 2 samples remain, and
otherwise returns the interpolated scalar; a target outside
`[min(x_clean), max(x_clean)]` sets the warning flag but the call still
returns the (extrapolated) scalar instead of failing. -/
theorem interpolate_design_parameter_spec
    (interp : List ℚ → List ℚ → String → ℚ → ℚ)
    (x_sweep : List ℚ) (y_sweep : List FloatValue) (target_x : ℚ)
    (kind : String) (hlen : x_sweep.length = y_sweep.length) :
    ((clean_sweep x_sweep y_sweep).length
        = (y_sweep.filter FloatValue.isFinite).length)
    ∧ (∀ p ∈ clean_sweep x_sweep y_sweep,
        (p.1, FloatValue.finite p.2) ∈ x_sweep.zip y_sweep)
    ∧ ((clean_sweep x_sweep y_sweep).length < 2 ↔
        interpolate_design_parameter interp x_sweep y_sweep target_x kind
          = .error "Insufficient valid data points for interpolation.")
    ∧ (2 ≤ (clean_sweep x_sweep y_sweep).length →
        ∃ w : Bool,
          interpolate_design_parameter interp x_sweep y_sweep target_x kind
            = .ok (w, interp ((clean_sweep x_sweep y_sweep).map Prod.fst)
                ((clean_sweep x_sweep y_sweep).map Prod.snd) kind target_x))
    ∧ (2 ≤ (clean_sweep x_sweep y_sweep).length →
        (target_x < (((clean_sweep x_sweep y_sweep).map Prod.fst).min?.getD 0)
          ∨ target_x > (((clean_sweep x_sweep y_sweep).map Prod.fst).max?.getD 0)) →
        interpolate_design_parameter interp x_sweep y_sweep target_x kind
          = .ok (true, interp ((clean_sweep x_sweep y_sweep).map Prod.fst)
              ((clean_sweep x_sweep y_sweep).map Prod.snd) kind target_x)) := by
  have hmaplen : ((clean_sweep x_sweep y_sweep).map Prod.fst).length
      = (clean_sweep x_sweep y_sweep).length := List.length_map _ _
  refine ⟨clean_sweep_length x_sweep y_sweep hlen, ?_, ?_, ?_, ?_⟩
  · intro p hp
    rcases List.mem_filterMap.mp hp with ⟨q, hq, hmatch⟩
    rcases q with ⟨qx, qy⟩
    rcases qy with v | _ | _ | _ <;> simp at hmatch
    subst hmatch
    exact hq
  · constructor
    · intro h
      unfold interpolate_design_parameter
      rw [if_pos (by rw [hmaplen]; exact h)]
    · intro h
      by_contra hlt
      push_neg at hlt
      unfold interpolate_design_parameter at h
      rw [if_neg (by rw [hmaplen]; omega)] at h
      exact Except.noConfusion h
  · intro h
    unfold interpolate_design_parameter
    rw [if_neg (by rw [hmaplen]; omega)]
    exact ⟨_, rfl⟩
  · intro h hout
    unfold interpolate_design_parameter
    rw [if_neg (by rw [hmaplen]; omega)]
    have : decide (target_x
        < (((clean_sweep x_sweep y_sweep).map Prod.fst).min?.getD 0)
        ∨ target_x
        > (((clean_sweep x_sweep y_sweep).map Prod.fst).max?.getD 0))
        = true := decide_eq_true hout
    rw [this]

/-- Witness for C8 at the spec's example sweep `x = [0.1, 0.15, 0.2, 0.25]`
with one failed (NaN) sample and out-of-range target `0.3`: three finite
samples survive the mask, and the call warns yet returns the collaborator's
extrapolated scalar. -/
theorem interpolate_design_parameter_spec_witness :
    ((clean_sweep [0.1, 0.15, 0.2, 0.25]
        [.finite 10, .nan, .finite 6, .finite 5]).length
      = ([FloatValue.finite 10, .nan, .finite 6, .finite 5].filter
          FloatValue.isFinite).length)
    ∧ interpolate_design_parameter (fun _ _ _ _ => 42)
        [0.1, 0.15, 0.2, 0.25] [.finite 10, .nan, .finite 6, .finite 5]
        0.3 "cubic"
      = .ok (true, 42) := by
  have h := interpolate_design_parameter_spec (fun _ _ _ _ => 42)
    [0.1, 0.15, 0.2, 0.25] [.finite 10, .nan, .finite 6, .finite 5]
    0.3 "cubic" (by decide)
  refine ⟨h.1, ?_⟩
  have hclean : clean_sweep [0.1, 0.15, 0.2, 0.25]
      [.finite 10, .nan, .finite 6, .finite 5]
      = [(0.1, 10), (0.2, 6), (0.25, 5)] := by
    simp [clean_sweep]
  have hlen2 : 2 ≤ (clean_sweep [0.1, 0.15, 0.2, 0.25]
      [FloatValue.finite 10, .nan, .finite 6, .finite 5]).length := by
    rw [hclean]
    norm_num
  have hout : (0.3 : ℚ)
      < (((clean_sweep [0.1, 0.15, 0.2, 0.25]
          [FloatValue.finite 10, .nan, .finite 6, .finite 5]).map
            Prod.fst).min?.getD 0)
      ∨ (0.3 : ℚ)
      > (((clean_sweep [0.1, 0.15, 0.2, 0.25]
          [FloatValue.finite 10, .nan, .finite 6, .finite 5]).map
            Prod.fst).max?.getD 0) := by
    right
    rw [hclean]
    norm_num [List.max?, max_def]
  have h2 := h.2.2.2.2 hlen2 hout
  rw [h2]

/-! ## `SParameterExporter.get_complex_s_params` (src/utils/export_utils.py).
`S = sqrt(|T|) * exp(i * phase)`; the square root forces this part of the
embedding into `ℝ`/`ℂ`. -/

/-- `get_complex_s_params(wvl, T_linear, phase_rad=None)`:
`magnitude = np.sqrt(np.abs(T_linear))`; if `phase_rad is None` it is the
zero array; result `magnitude * np.exp(1j * phase_rad)` elementwise.  (The
`wvl` argument is unused in the source and omitted.) -/
noncomputable def get_complex_s_params (T_linear : List ℝ)
    (phase_rad : Option (List ℝ)) : List ℂ :=
  (T_linear.zip (phase_rad.getD (List.replicate T_linear.length 0))).map
    (fun p => (Real.sqrt |p.1| : ℂ) * Complex.exp (Complex.I * (p.2 : ℝ)))

lemma zip_replicate_self {α β : Type} (l : List α) (c : β) :
    l.zip (List.replicate l.length c) = l.map (fun a => (a, c)) := by
  induction l with
  | nil => rfl
  | cons hd tl ih => simp [List.replicate_succ, ih]

lemma get_complex_s_params_none_getD (T : List ℝ) (k : ℕ)
    (hk : k < T.length) :
    (get_complex_s_params T none).getD k 0
      = ((Real.sqrt |T.getD k 0| : ℝ) : ℂ) := by
  unfold get_complex_s_params
  rw [Option.getD_none, zip_replicate_self, List.map_map]
  have hk' : k < (T.map ((fun p => (Real.sqrt |p.1| : ℂ)
      * Complex.exp (Complex.I * (p.2 : ℝ))) ∘ fun a => (a, (0 : ℝ)))).length := by
    simpa using hk
  rw [List.getD_eq_getElem _ _ hk', List.getElem_map,
    List.getD_eq_getElem _ _ hk]
  simp [Complex.exp_zero]

/-- **C4, counterexample.**  At `T = [-1]` with phase omitted, the code
computes `S = sqrt(|-1|) = 1`, so `|S|^2 = 1 ≠ -1 = T`: the claimed
`|S|^2 == T` fails for arrays with a negative entry (the source takes
`np.abs` before the square root). -/
theorem get_complex_s_params_negative_counterexample :
    Complex.abs ((get_complex_s_params [(-1 : ℝ)] none).getD 0 0) ^ 2 = 1
    ∧ Complex.abs ((get_complex_s_params [(-1 : ℝ)] none).getD 0 0) ^ 2
      ≠ (-1 : ℝ) := by
  have h : (get_complex_s_params [(-1 : ℝ)] none).getD 0 0
      = ((Real.sqrt |(-1 : ℝ)| : ℝ) : ℂ) :=
    get_complex_s_params_none_getD [(-1 : ℝ)] 0 (by norm_num)
  have h1 : Complex.abs ((get_complex_s_params [(-1 : ℝ)] none).getD 0 0) ^ 2
      = 1 := by
    rw [h]
    norm_num [Complex.abs_ofReal]
  exact ⟨h1, by rw [h1]; norm_num⟩

/-- **C4, amended.**  For any input transmission array `T` with phase omitted
(`phase_rad = None`), the array `S` returned by `get_complex_s_params`
satisfies `|S|^2 == |T|` elementwise and `angle(S) == 0` elementwise (`S` is
real and non-negative); in particular `|S|^2 == T` at every index where `T`
is non-negative — but not at negative entries, where `|S|^2 = -T`. -/
theorem get_complex_s_params_intensity (T : List ℝ) (k : ℕ)
    (hk : k < T.length) :
    (Complex.abs ((get_complex_s_params T none).getD k 0) ^ 2 = |T.getD k 0|)
    ∧ (0 ≤ T.getD k 0 →
        Complex.abs ((get_complex_s_params T none).getD k 0) ^ 2
          = T.getD k 0)
    ∧ ((get_complex_s_params T none).getD k 0).arg = 0 := by
  have h := get_complex_s_params_none_getD T k hk
  have habs : Complex.abs ((get_complex_s_params T none).getD k 0)
      = Real.sqrt |T.getD k 0| := by
    rw [h, Complex.abs_ofReal, abs_of_nonneg (Real.sqrt_nonneg _)]
  have hsq : Complex.abs ((get_complex_s_params T none).getD k 0) ^ 2
      = |T.getD k 0| := by
    rw [habs, Real.sq_sqrt (abs_nonneg _)]
  refine ⟨hsq, fun hnonneg => ?_, ?_⟩
  · rw [hsq, abs_of_nonneg hnonneg]
  · rw [h]
    exact Complex.arg_ofReal_of_nonneg (Real.sqrt_nonneg _)

/-- Witness for C4 (amended) at `T = [1/4]`: `|S|^2 = |1/4| = 1/4 = T[0]` and
`angle(S) = 0`. -/
theorem get_complex_s_params_intensity_witness :
    (0 : ℕ) < ([(1/4 : ℝ)]).length
    ∧ (Complex.abs ((get_complex_s_params [(1/4 : ℝ)] none).getD 0 0) ^ 2
        = |((1/4 : ℝ) : ℝ)|)
    ∧ ((get_complex_s_params [(1/4 : ℝ)] none).getD 0 0).arg = 0 :=
  ⟨by norm_num,
   (get_complex_s_params_intensity [(1/4 : ℝ)] 0 (by norm_num)).1,
   (get_complex_s_params_intensity [(1/4 : ℝ)] 0 (by norm_num)).2.2⟩

end Photonics
